import Mathlib

/-!
Verification of the batch video-analysis tool in `src/index.js`.

The JavaScript source is shallowly embedded: the MongoDB `raw` collection is a
list of documents keyed by `mediaId`, the `experiments` collection is a list of
versioned experiment documents, and every external collaborator (the
`JSON.parse` primitive, the OpenAI JSON-repair call, the TwelveLabs
`client.generate.text` endpoint, `readFileSync`, `Date.now`) is an opaque
function packed into an `Env` record.  Each embedded operation also returns the
list of observable events it performed (generation calls, collection writes,
repair calls, error logs), so that claims about "no network call" or "no
write" can be stated over the trace.
-/

namespace InstAiBot

/-- The newline character removed by `cleanData` (`\n`). -/
def newlineChar : Char := Char.ofNat 10

/-- The plus character removed by `cleanData` (`+`). -/
def plusChar : Char := Char.ofNat 43

/-- The backtick character rewritten by `cleanData`. -/
def backtickChar : Char := Char.ofNat 96

/-- The apostrophe character substituted for backticks by `cleanData`. -/
def apostropheChar : Char := Char.ofNat 39

/-- `s.replace(/c/g, "")` for a single character `c`: drop every occurrence. -/
def removeAllOcc (c : Char) (s : List Char) : List Char :=
  s.filter (fun x => x != c)

/-- `s.replace(/a/g, "b")` for single characters: rewrite every occurrence. -/
def replaceAllOcc (a b : Char) (s : List Char) : List Char :=
  s.map (fun x => if x == a then b else x)

/-- `cleanData` (src/index.js lines 37-45): strips newlines and plus signs and
turns backticks into apostrophes before the payload is parsed. -/
def cleanData (data : String) : String :=
  ⟨replaceAllOcc backtickChar apostropheChar
    (removeAllOcc plusChar (removeAllOcc newlineChar data.data))⟩

/-- A value stored in a document field: either a timestamp written by the code
(`new Date()`, modelled as a `Nat`) or an opaque value coming from parsed
JSON. -/
inductive FieldValue where
  | time (t : Nat)
  | str (s : String)
deriving DecidableEq, Repr

/-- A parsed JSON object, as the embedding sees it: an ordered list of
key/value pairs with opaque values. -/
abbrev Obj := List (String × String)

/-- A document of the `raw` collection: the `mediaId` key plus its other
fields. -/
structure RawDoc where
  mediaId : String
  fields : List (String × FieldValue)
deriving DecidableEq, Repr

/-- A document of the `experiments` collection (see
`updateExperimentCollection`). -/
structure ExpDoc where
  mediaId : String
  promptPath : String
  version : Nat
  data : Obj
  createdAt : Nat
deriving DecidableEq, Repr

/-- The external collaborators of src/index.js, as opaque functions:
`jsonParse` is the `JSON.parse` primitive (`none` models a thrown
`SyntaxError`), `repair` is the OpenAI chat-completion call of the fix-JSON
path (returning the content of the first choice), `gen` is
`client.generate.text` taking the video id, the prompt and the temperature in
tenths (`8` for `0.8`, `5` for `0.5`) and either returning `res.data` or
throwing, `readFile` is `readFileSync`, and `now` is the clock used for
`new Date()`. -/
structure Env where
  jsonParse : String → Option Obj
  repair : String → String
  gen : String → String → Nat → Except String String
  readFile : String → String
  now : Nat

/-- An observable effect of the embedded code: a generation network call, a
write to the `raw` collection for a given `mediaId`, an insert into the
`experiments` collection, an OpenAI repair call, or a `console.error` log. -/
inductive Event where
  | genCall (videoId prompt : String)
  | writeDoc (mediaId : String)
  | insertExp (mediaId promptPath : String) (version : Nat)
  | repairCall (payload : String)
  | logError (msg : String)
deriving DecidableEq, Repr

/-- Read a field of a document. -/
def getField (fs : List (String × FieldValue)) (k : String) : Option FieldValue :=
  (fs.find? (fun kv => kv.1 == k)).map (fun kv => kv.2)

/-- MongoDB `$set` of a single field: overwrite it if present, else append
it. -/
def setField (fs : List (String × FieldValue)) (k : String) (v : FieldValue) :
    List (String × FieldValue) :=
  if fs.any (fun kv => kv.1 == k) then
    fs.map (fun kv => if kv.1 == k then (k, v) else kv)
  else
    fs ++ [(k, v)]

/-- MongoDB `$set` of a whole update object, field by field (later fields of
the object literal win, as in JavaScript spread syntax). -/
def applySet (fs : List (String × FieldValue)) (upd : List (String × FieldValue)) :
    List (String × FieldValue) :=
  upd.foldl (fun acc kv => setField acc kv.1 kv.2) fs

/-- `collection.findOneAndUpdate({mediaId}, {$set, $setOnInsert}, {upsert:true})`:
update the first document matching the `mediaId` filter with the `$set`
fields, or, when none matches, insert a new document built from the filter,
the `$set` fields and the `$setOnInsert` fields. -/
def findOneAndUpdateUpsert (coll : List RawDoc) (m : String)
    (setFs setOnInsertFs : List (String × FieldValue)) : List RawDoc :=
  match coll with
  | [] => [⟨m, applySet (applySet [] setFs) setOnInsertFs⟩]
  | d :: rest =>
    if d.mediaId == m then ⟨d.mediaId, applySet d.fields setFs⟩ :: rest
    else d :: findOneAndUpdateUpsert rest m setFs setOnInsertFs

/-- View a parsed JSON object as document fields. -/
def objFields (o : Obj) : List (String × FieldValue) :=
  o.map (fun kv => (kv.1, FieldValue.str kv.2))

/-- `updateCollection` (src/index.js lines 47-101).  The payload is first
cleaned; if the cleaned text parses as JSON the parsed fields plus a fresh
`updatedAt` timestamp are upserted by `mediaId`, with `createdAt` set only on
insert.  If `JSON.parse` throws, the OpenAI fix-JSON call is made and its
output parsed; the repaired fields are upserted by `mediaId` with no
timestamp handling at all.  A failure of the second parse escapes the catch
block and propagates.  The timestamp `t` is the `new Date()` taken inside the
call. -/
def updateCollection (env : Env) (t : Nat) (coll : List RawDoc)
    (mediaId : String) (data : String) :
    Except String (List RawDoc × Obj) × List Event :=
  let cleanedData := cleanData data
  match env.jsonParse cleanedData with
  | some parsedData =>
    (.ok (findOneAndUpdateUpsert coll mediaId
        (objFields parsedData ++ [("updatedAt", FieldValue.time t)])
        [("createdAt", FieldValue.time t)],
      parsedData),
     [.writeDoc mediaId])
  | none =>
    let fixedJson := env.repair cleanedData
    match env.jsonParse fixedJson with
    | some parsedFixedJson =>
      (.ok (findOneAndUpdateUpsert coll mediaId (objFields parsedFixedJson) [],
        parsedFixedJson),
       [.repairCall cleanedData, .writeDoc mediaId])
    | none =>
      (.error "SyntaxError: invalid JSON", [.repairCall cleanedData])

/-- The experiment documents matching a `{mediaId, promptPath}` filter. -/
def matchingExps (coll : List ExpDoc) (m p : String) : List ExpDoc :=
  coll.filter (fun d => d.mediaId == m && d.promptPath == p)

/-- The version of the first document of
`find({mediaId, promptPath}).sort({version: -1}).limit(1)`: a descending sort
by version puts a maximal version first, so this is the maximum version among
the matching documents. -/
def maxVersionOf (coll : List ExpDoc) (m p : String) : Nat :=
  (matchingExps coll m p).foldl (fun a d => Nat.max a d.version) 0

/-- The `lastExperiment.length > 0 ? lastExperiment[0].version + 1 : 1`
computation of `updateExperimentCollection`. -/
def nextVersion (coll : List ExpDoc) (m p : String) : Nat :=
  if (matchingExps coll m p).isEmpty then 1 else maxVersionOf coll m p + 1

/-- `updateExperimentCollection` (src/index.js lines 103-168): parse the
cleaned payload (running the fix-JSON repair on a parse failure, like
`updateCollection`), look up the latest version for the
`(mediaId, promptPath)` pair, and `insertOne` a new document carrying the
next version; returns the stored object together with its version. -/
def updateExperimentCollection (env : Env) (t : Nat) (coll : List ExpDoc)
    (mediaId promptPath : String) (data : String) :
    Except String (List ExpDoc × Obj × Nat) × List Event :=
  let cleanedData := cleanData data
  match env.jsonParse cleanedData with
  | some parsedData =>
    let version := nextVersion coll mediaId promptPath
    (.ok (coll ++ [⟨mediaId, promptPath, version, parsedData, t⟩], parsedData, version),
     [.insertExp mediaId promptPath version])
  | none =>
    let fixedJson := env.repair cleanedData
    match env.jsonParse fixedJson with
    | some parsedFixedJson =>
      let version := nextVersion coll mediaId promptPath
      (.ok (coll ++ [⟨mediaId, promptPath, version, parsedFixedJson, t⟩],
        parsedFixedJson, version),
       [.repairCall cleanedData, .insertExp mediaId promptPath version])
    | none =>
      (.error "SyntaxError: invalid JSON", [.repairCall cleanedData])

/-- `testPrompt` (src/index.js lines 170-205): read the prompt file, call
`client.generate.text(videoId, prompt, 0.5, {})` once, store the result in
the `experiments` collection, and return it; any error is logged by the catch
block and rethrown unchanged. -/
def testPrompt (env : Env) (videoId promptPath : String) (coll : List ExpDoc) :
    Except String (List ExpDoc × Obj × Nat) × List Event :=
  let prompt := env.readFile promptPath
  match env.gen videoId prompt 5 with
  | .error e => (.error e, [.genCall videoId prompt, .logError e])
  | .ok data =>
    match updateExperimentCollection env env.now coll videoId promptPath data with
    | (.error e, evs) => (.error e, .genCall videoId prompt :: evs ++ [.logError e])
    | (.ok r, evs) => (.ok r, .genCall videoId prompt :: evs)

/-- The inner prompt loop of `generateText` (src/index.js lines 249-260): for
each prompt, call `client.generate.text(currVideoID, prompt, 0.8, {})` once
and write the result with `updateCollection`; an error aborts the loop and
propagates.  Returns the collection as of the stop point, the propagating
error if any, and the event trace. -/
def processPrompts (env : Env) (videoId : String) (prompts : List String)
    (coll : List RawDoc) : List RawDoc × Option String × List Event :=
  match prompts with
  | [] => (coll, none, [])
  | p :: rest =>
    match env.gen videoId p 8 with
    | .error e => (coll, some e, [.genCall videoId p])
    | .ok data =>
      match updateCollection env env.now coll videoId data with
      | (.error e, evs) => (coll, some e, .genCall videoId p :: evs)
      | (.ok (coll2, _), evs) =>
        match processPrompts env videoId rest coll2 with
        | (coll3, r, evs2) => (coll3, r, .genCall videoId p :: evs ++ evs2)

/-- The video loop of `generateText` (src/index.js lines 238-262): skip every
video id contained in `existingIDsMongo` (computed once before the loop);
otherwise run the prompt loop.  An error aborts the remaining videos and
propagates. -/
def processVideos (env : Env) (existingIDs : List String) (prompts : List String)
    (videoIDs : List String) (coll : List RawDoc) :
    List RawDoc × Option String × List Event :=
  match videoIDs with
  | [] => (coll, none, [])
  | v :: rest =>
    if existingIDs.contains v then processVideos env existingIDs prompts rest coll
    else
      match processPrompts env v prompts coll with
      | (coll2, some e, evs) => (coll2, some e, evs)
      | (coll2, none, evs) =>
        match processVideos env existingIDs prompts rest coll2 with
        | (coll3, r, evs2) => (coll3, r, evs ++ evs2)

/-- `generateText` (src/index.js lines 225-267): compute `existingIDsMongo`
from the collection, run the video loop, and catch any error, logging it with
`console.error` — nothing propagates to the caller.  `videoIDs` stands for
the ids returned by `client.index.video.list`, `prompts` for the prompt files
read by `readPrompts`, and `coll` for the `raw` collection at the start of
the call. -/
def generateText (env : Env) (videoIDs prompts : List String)
    (coll : List RawDoc) : List RawDoc × List Event :=
  let existingIDsMongo := coll.map RawDoc.mediaId
  match processVideos env existingIDsMongo prompts videoIDs coll with
  | (coll2, none, evs) => (coll2, evs)
  | (coll2, some e, evs) => (coll2, evs ++ [.logError e])

/-- The action selected by `main` (src/index.js lines 207-223). -/
inductive MainAction where
  | runFullAnalysis
  | runSingleTest (videoId promptPath : String)
  | printUsageExit (code : Nat)
deriving DecidableEq, Repr

/-- `main` (src/index.js lines 207-223): dispatch on the arity of
`process.argv.slice(2)` (passed here as `args`). -/
def main (args : List String) : MainAction :=
  if args.length == 0 then .runFullAnalysis
  else if args.length == 2 then .runSingleTest (args.getD 0 "") (args.getD 1 "")
  else .printUsageExit 1

/-- Whether an event is a generation call or a collection write concerning the
given media identifier. -/
def touchesId (id : String) : Event → Bool
  | .genCall v _ => v == id
  | .writeDoc m => m == id
  | .insertExp m _ _ => m == id
  | .repairCall _ => false
  | .logError _ => false

/-- Count the generation network calls in a trace. -/
def countGenCalls (evs : List Event) : Nat :=
  (evs.filter (fun ev => match ev with | .genCall _ _ => true | _ => false)).length

/-- A sequence of `updateCollection` calls, each given as
`(timestamp, mediaId, payload)`; an error stops the sequence (the JavaScript
exception propagates), leaving the collection as already written. -/
def runCalls (env : Env) (calls : List (Nat × String × String))
    (coll : List RawDoc) : List RawDoc :=
  match calls with
  | [] => coll
  | (t, m, data) :: rest =>
    match (updateCollection env t coll m data).1 with
    | .ok (coll2, _) => runCalls env rest coll2
    | .error _ => coll

/-- The named field of the document stored under a given `mediaId`, if any. -/
def docField (coll : List RawDoc) (m k : String) : Option FieldValue :=
  (coll.find? (fun d => d.mediaId == m)).bind (fun d => getField d.fields k)

/-- A concrete `JSON.parse` behaviour used for witnesses: exactly the strings
`good` and `fixed` parse, to distinct one-field objects. -/
def parseDemo : String → Option Obj := fun s =>
  if s == "good" then some [("a", "1")]
  else if s == "fixed" then some [("b", "2")]
  else none

/-- A concrete environment for witnesses: generation succeeds with the
parseable payload `good`, and the repair call always answers `fixed`. -/
def envDemo : Env :=
  { jsonParse := parseDemo
    repair := fun _ => "fixed"
    gen := fun _ _ _ => Except.ok "good"
    readFile := fun p => p
    now := 7 }

/-- A concrete environment whose generation endpoint always throws `boom`. -/
def envFail : Env :=
  { jsonParse := parseDemo
    repair := fun _ => "fixed"
    gen := fun _ _ _ => Except.error "boom"
    readFile := fun p => p
    now := 7 }

end InstAiBot

namespace InstAiBot

/-- C9: `cleanData` output contains no newline, no plus sign and no backtick,
and `cleanData` is idempotent. -/
theorem c9_cleanData_idempotent (s : String) :
    ((cleanData s).data.all
      (fun c => c != newlineChar && c != plusChar && c != backtickChar)) = true
    ∧ cleanData (cleanData s) = cleanData s := by
  constructor
  · unfold cleanData replaceAllOcc removeAllOcc
    simp only [List.all_map, List.all_filter, List.all_eq_true]
    intro c _
    by_cases h1 : c == newlineChar <;> by_cases h2 : c == plusChar <;>
      by_cases h3 : c == backtickChar <;> simp_all [newlineChar, plusChar, backtickChar,
        apostropheChar, Function.comp]
  · unfold cleanData replaceAllOcc removeAllOcc
    induction s.data with
    | nil => rfl
    | cons c cs ih =>
      by_cases h1 : c == newlineChar <;> by_cases h2 : c == plusChar <;>
        by_cases h3 : c == backtickChar <;>
        simp_all [newlineChar, plusChar, backtickChar, apostropheChar,
          String.ext_iff]

/-- C10: `main` runs the full batch analysis on zero arguments, the
single-prompt test on exactly two (first the video id, then the prompt path),
and prints usage and exits with code 1 on any other arity. -/
theorem c10_main_dispatch :
    main [] = .runFullAnalysis
    ∧ (∀ a b : String, main [a, b] = .runSingleTest a b)
    ∧ (∀ args : List String, args.length ≠ 0 → args.length ≠ 2 →
        main args = .printUsageExit 1) := by
  refine ⟨rfl, fun a b => rfl, fun args h0 h2 => ?_⟩
  unfold main
  simp only [beq_iff_eq, h0, h2, if_false]

/-- Witness for C10 at a concrete three-argument input. -/
theorem c10_main_dispatch_witness :
    main ["a", "b", "c"] = .printUsageExit 1 :=
  c10_main_dispatch.2.2 ["a", "b", "c"] (by decide) (by decide)

theorem updateCollection_touches (env : Env) (t : Nat) (coll : List RawDoc)
    (m data id : String) (ev : Event)
    (hmem : ev ∈ (updateCollection env t coll m data).2)
    (htouch : touchesId id ev = true) : id = m := by
  unfold updateCollection at hmem
  cases h1 : env.jsonParse (cleanData data) with
  | some o =>
    simp only [h1, List.mem_singleton] at hmem
    subst hmem
    simp only [touchesId, beq_iff_eq] at htouch
    exact htouch.symm
  | none =>
    simp only [h1] at hmem
    cases h2 : env.jsonParse (env.repair (cleanData data)) with
    | some o2 =>
      simp only [h2, List.mem_cons, List.mem_singleton, List.not_mem_nil,
        or_false] at hmem
      rcases hmem with hmem | hmem
      · subst hmem; simp [touchesId] at htouch
      · subst hmem
        simp only [touchesId, beq_iff_eq] at htouch
        exact htouch.symm
    | none =>
      simp only [h2, List.mem_singleton] at hmem
      subst hmem
      simp [touchesId] at htouch

theorem processPrompts_touches (env : Env) (vid : String) (prompts : List String)
    (coll : List RawDoc) (id : String) (ev : Event)
    (hmem : ev ∈ (processPrompts env vid prompts coll).2.2)
    (htouch : touchesId id ev = true) : id = vid := by
  induction prompts generalizing coll with
  | nil => simp [processPrompts] at hmem
  | cons p rest ih =>
    unfold processPrompts at hmem
    cases hg : env.gen vid p 8 with
    | error e =>
      simp only [hg, List.mem_singleton] at hmem
      subst hmem
      simp only [touchesId, beq_iff_eq] at htouch
      exact htouch.symm
    | ok data =>
      simp only [hg] at hmem
      rcases hu : updateCollection env env.now coll vid data with ⟨r, evs⟩
      cases r with
      | error e =>
        simp only [hu, List.mem_cons] at hmem
        rcases hmem with hmem | hmem
        · subst hmem
          simp only [touchesId, beq_iff_eq] at htouch
          exact htouch.symm
        · exact updateCollection_touches env env.now coll vid data id ev
            (by rw [hu]; exact hmem) htouch
      | ok pr =>
        rcases pr with ⟨coll2, o⟩
        rcases hp2 : processPrompts env vid rest coll2 with ⟨coll3, r2, evs2⟩
        simp only [hu, hp2, List.mem_cons, List.mem_append] at hmem
        rcases hmem with (hmem | hmem) | hmem
        · subst hmem
          simp only [touchesId, beq_iff_eq] at htouch
          exact htouch.symm
        · exact updateCollection_touches env env.now coll vid data id ev
            (by rw [hu]; exact hmem) htouch
        · exact ih coll2 (by rw [hp2]; exact hmem)

theorem processVideos_touches (env : Env) (ex prompts vids : List String)
    (coll : List RawDoc) (id : String) (ev : Event)
    (hmem : ev ∈ (processVideos env ex prompts vids coll).2.2)
    (htouch : touchesId id ev = true) :
    id ∈ vids ∧ ex.contains id = false := by
  induction vids generalizing coll with
  | nil => simp [processVideos] at hmem
  | cons v rest ih =>
    unfold processVideos at hmem
    cases hc : ex.contains v with
    | true =>
      simp only [hc, if_true] at hmem
      rcases ih coll hmem with ⟨h1, h2⟩
      exact ⟨List.mem_cons_of_mem v h1, h2⟩
    | false =>
      simp only [hc, Bool.false_eq_true, if_false] at hmem
      rcases hp : processPrompts env v prompts coll with ⟨coll2, r, evs⟩
      cases r with
      | some e =>
        simp only [hp] at hmem
        have hid : id = v :=
          processPrompts_touches env v prompts coll id ev (by rw [hp]; exact hmem) htouch
        subst hid
        exact ⟨List.mem_cons_self id rest, hc⟩
      | none =>
        simp only [hp] at hmem
        rcases hv : processVideos env ex prompts rest coll2 with ⟨coll3, r2, evs2⟩
        simp only [hv, List.mem_append] at hmem
        rcases hmem with hmem | hmem
        · have hid : id = v :=
            processPrompts_touches env v prompts coll id ev (by rw [hp]; exact hmem) htouch
          subst hid
          exact ⟨List.mem_cons_self id rest, hc⟩
        · rcases ih coll2 (by rw [hv]; exact hmem) with ⟨h1, h2⟩
          exact ⟨List.mem_cons_of_mem v h1, h2⟩

theorem generateText_touches (env : Env) (videoIDs prompts : List String)
    (coll : List RawDoc) (id : String) (ev : Event)
    (hmem : ev ∈ (generateText env videoIDs prompts coll).2)
    (htouch : touchesId id ev = true) :
    id ∉ coll.map RawDoc.mediaId := by
  unfold generateText at hmem
  rcases hp : processVideos env (coll.map RawDoc.mediaId) prompts videoIDs coll
    with ⟨c2, r, evs⟩
  have hmem2 : ev ∈ evs := by
    cases r with
    | none => simpa [hp] using hmem
    | some e =>
      simp only [hp, List.mem_append, List.mem_singleton] at hmem
      rcases hmem with hmem | hmem
      · exact hmem
      · subst hmem; simp [touchesId] at htouch
  have := processVideos_touches env (coll.map RawDoc.mediaId) prompts videoIDs coll
    id ev (by rw [hp]; exact hmem2) htouch
  intro hin
  have : (coll.map RawDoc.mediaId).contains id = true := by
    simpa [List.contains] using List.elem_eq_true_of_mem hin
  rw [this] at *
  simp_all

/-- C1: deduplication in `generateText` — a video id already present in the
`raw` collection when the batch starts triggers no generation call and no
collection write, and every generation call that does happen is for an id
absent from the collection at the start. -/
theorem c1_generateText_dedup (env : Env) (videoIDs prompts : List String)
    (coll : List RawDoc) :
    (∀ id, id ∈ coll.map RawDoc.mediaId →
      ∀ ev ∈ (generateText env videoIDs prompts coll).2, touchesId id ev = false)
    ∧ (∀ v p, Event.genCall v p ∈ (generateText env videoIDs prompts coll).2 →
        v ∉ coll.map RawDoc.mediaId) := by
  constructor
  · intro id hid ev hmem
    cases ht : touchesId id ev with
    | false => rfl
    | true =>
      exact absurd hid (generateText_touches env videoIDs prompts coll id ev hmem ht)
  · intro v p hmem
    exact generateText_touches env videoIDs prompts coll v _ hmem (by simp [touchesId])

theorem findOneAndUpdateUpsert_map_mediaId (coll : List RawDoc) (m : String)
    (s i : List (String × FieldValue)) :
    (findOneAndUpdateUpsert coll m s i).map RawDoc.mediaId =
      if coll.any (fun d => d.mediaId == m) then coll.map RawDoc.mediaId
      else coll.map RawDoc.mediaId ++ [m] := by
  induction coll with
  | nil => simp [findOneAndUpdateUpsert]
  | cons d rest ih =>
    cases hd : d.mediaId == m with
    | true =>
      simp [findOneAndUpdateUpsert, hd]
    | false =>
      simp only [findOneAndUpdateUpsert, hd, Bool.false_eq_true, if_false,
        List.map_cons, List.any_cons, Bool.false_or, ih]
      cases ha : rest.any (fun d => d.mediaId == m) <;> simp

theorem updateCollection_map_mediaId (env : Env) (t : Nat) (coll : List RawDoc)
    (m data : String) (coll2 : List RawDoc) (o : Obj) (evs : List Event)
    (h : updateCollection env t coll m data = (.ok (coll2, o), evs)) :
    coll2.map RawDoc.mediaId =
      if coll.any (fun d => d.mediaId == m) then coll.map RawDoc.mediaId
      else coll.map RawDoc.mediaId ++ [m] := by
  unfold updateCollection at h
  cases h1 : env.jsonParse (cleanData data) with
  | some p =>
    simp only [h1, Prod.mk.injEq, Except.ok.injEq] at h
    rw [← h.1.1]
    exact findOneAndUpdateUpsert_map_mediaId coll m _ _
  | none =>
    simp only [h1] at h
    cases h2 : env.jsonParse (env.repair (cleanData data)) with
    | some p2 =>
      simp only [h2, Prod.mk.injEq, Except.ok.injEq] at h
      rw [← h.1.1]
      exact findOneAndUpdateUpsert_map_mediaId coll m _ _
    | none =>
      simp only [h2, Prod.mk.injEq] at h
      exact absurd h.1 (by simp)

theorem updateCollection_nodup (env : Env) (t : Nat) (coll : List RawDoc)
    (m data : String) (coll2 : List RawDoc) (o : Obj) (evs : List Event)
    (h : updateCollection env t coll m data = (.ok (coll2, o), evs))
    (hnd : (coll.map RawDoc.mediaId).Nodup) :
    (coll2.map RawDoc.mediaId).Nodup := by
  rw [updateCollection_map_mediaId env t coll m data coll2 o evs h]
  cases ha : coll.any (fun d => d.mediaId == m) with
  | true => simpa using hnd
  | false =>
    simp only [Bool.false_eq_true, if_false]
    refine List.Nodup.append hnd (List.nodup_singleton m) ?_
    intro x hx hx2
    simp only [List.mem_singleton] at hx2
    subst hx2
    simp only [List.mem_map] at hx
    rcases hx with ⟨d, hd, hdm⟩
    have := List.any_eq_false.mp ha d hd
    simp [hdm] at this

theorem findOneAndUpdateUpsert_mem_other (coll : List RawDoc) (m : String)
    (s i : List (String × FieldValue)) (d : RawDoc)
    (hd : d ∈ coll) (hne : d.mediaId ≠ m) :
    d ∈ findOneAndUpdateUpsert coll m s i := by
  induction coll with
  | nil => cases hd
  | cons d0 rest ih =>
    cases hd0 : d0.mediaId == m with
    | true =>
      simp only [findOneAndUpdateUpsert, hd0, if_true]
      rcases List.mem_cons.mp hd with hd | hd
      · subst hd
        exact absurd (beq_iff_eq.mp hd0) hne
      · exact List.mem_cons_of_mem _ hd
    | false =>
      simp only [findOneAndUpdateUpsert, hd0, Bool.false_eq_true, if_false]
      rcases List.mem_cons.mp hd with hd | hd
      · subst hd; exact List.mem_cons_self _ _
      · exact List.mem_cons_of_mem _ (ih hd)

theorem updateCollection_ok_shape (env : Env) (t : Nat) (coll : List RawDoc)
    (m data : String) (coll2 : List RawDoc) (o : Obj) (evs : List Event)
    (h : updateCollection env t coll m data = (.ok (coll2, o), evs)) :
    ∃ s i, coll2 = findOneAndUpdateUpsert coll m s i := by
  unfold updateCollection at h
  cases h1 : env.jsonParse (cleanData data) with
  | some p =>
    simp only [h1, Prod.mk.injEq, Except.ok.injEq] at h
    exact ⟨_, _, h.1.1.symm⟩
  | none =>
    simp only [h1] at h
    cases h2 : env.jsonParse (env.repair (cleanData data)) with
    | some p2 =>
      simp only [h2, Prod.mk.injEq, Except.ok.injEq] at h
      exact ⟨_, _, h.1.1.symm⟩
    | none =>
      simp only [h2, Prod.mk.injEq] at h
      exact absurd h.1 (by simp)

theorem runCalls_nodup (env : Env) (calls : List (Nat × String × String))
    (coll : List RawDoc) (hnd : (coll.map RawDoc.mediaId).Nodup) :
    ((runCalls env calls coll).map RawDoc.mediaId).Nodup := by
  induction calls generalizing coll with
  | nil => simpa [runCalls] using hnd
  | cons c rest ih =>
    rcases c with ⟨t, m, data⟩
    rcases hu : updateCollection env t coll m data with ⟨r, evs⟩
    cases r with
    | ok pr =>
      rcases pr with ⟨coll2, o⟩
      have heq : runCalls env ((t, m, data) :: rest) coll = runCalls env rest coll2 := by
        simp only [runCalls, hu]
      rw [heq]
      exact ih coll2 (updateCollection_nodup env t coll m data coll2 o evs hu hnd)
    | error e =>
      have heq : runCalls env ((t, m, data) :: rest) coll = coll := by
        simp only [runCalls, hu]
      rw [heq]
      exact hnd

/-- C2: the `raw` collection holds at most one document per `mediaId` key:
starting from a collection with unique keys, any sequence of
`updateCollection` calls whose cleaned payloads parse as JSON keeps the keys
unique, and a call for a `mediaId` that already has a document leaves the key
set unchanged (the single matching document is updated in place and no second
document is inserted; documents with other keys survive untouched). -/
theorem c2_upsert_unique (env : Env) :
    (∀ (calls : List (Nat × String × String)) (coll : List RawDoc),
      (∀ c ∈ calls, (env.jsonParse (cleanData c.2.2)).isSome = true) →
      (coll.map RawDoc.mediaId).Nodup →
      ((runCalls env calls coll).map RawDoc.mediaId).Nodup)
    ∧ (∀ (t : Nat) (coll : List RawDoc) (m data : String)
        (coll2 : List RawDoc) (o : Obj) (evs : List Event),
        m ∈ coll.map RawDoc.mediaId →
        updateCollection env t coll m data = (.ok (coll2, o), evs) →
        coll2.map RawDoc.mediaId = coll.map RawDoc.mediaId
          ∧ ∀ d ∈ coll, d.mediaId ≠ m → d ∈ coll2) := by
  constructor
  · intro calls coll _ hnd
    exact runCalls_nodup env calls coll hnd
  · intro t coll m data coll2 o evs hmem h
    have hany : coll.any (fun d => d.mediaId == m) = true := by
      simp only [List.mem_map] at hmem
      rcases hmem with ⟨d, hd, hdm⟩
      exact List.any_eq_true.mpr ⟨d, hd, by simp [hdm]⟩
    constructor
    · rw [updateCollection_map_mediaId env t coll m data coll2 o evs h, hany]
      simp
    · intro d hd hne
      rcases updateCollection_ok_shape env t coll m data coll2 o evs h with ⟨s, i, hs⟩
      rw [hs]
      exact findOneAndUpdateUpsert_mem_other coll m s i d hd hne

/-- Witness for C2 with two calls on the same key from the empty collection. -/
theorem c2_upsert_unique_witness :
    ((runCalls envDemo [(1, "m", "good"), (2, "m", "good")] []).map
      RawDoc.mediaId).Nodup :=
  (c2_upsert_unique envDemo).1 [(1, "m", "good"), (2, "m", "good")] []
    (by decide) (by decide)

theorem getField_map_set (fs : List (String × FieldValue)) (k : String)
    (v : FieldValue) (h : fs.any (fun kv => kv.1 == k) = true) :
    getField (fs.map (fun kv => if kv.1 == k then (k, v) else kv)) k = some v := by
  induction fs with
  | nil => simp at h
  | cons kv rest ih =>
    cases h0 : kv.1 == k with
    | true =>
      simp [getField, h0, List.find?]
    | false =>
      simp only [List.any_cons, h0, Bool.false_or] at h
      simp only [List.map_cons, h0, Bool.false_eq_true, if_false]
      simp only [getField, List.find?, h0]
      exact ih h

theorem getField_append_single_self (fs : List (String × FieldValue))
    (k : String) (v : FieldValue) (h : fs.any (fun kv => kv.1 == k) = false) :
    getField (fs ++ [(k, v)]) k = some v := by
  induction fs with
  | nil => simp [getField, List.find?]
  | cons kv rest ih =>
    simp only [List.any_cons, Bool.or_eq_false_iff] at h
    simp only [List.cons_append, getField, List.find?, h.1]
    exact ih h.2

theorem getField_setField_self (fs : List (String × FieldValue)) (k : String)
    (v : FieldValue) : getField (setField fs k v) k = some v := by
  unfold setField
  cases ha : fs.any (fun kv => kv.1 == k) with
  | true => simpa using getField_map_set fs k v ha
  | false => simpa using getField_append_single_self fs k v ha

theorem getField_map_set_ne (fs : List (String × FieldValue)) (k k' : String)
    (v : FieldValue) (hne : k' ≠ k) :
    getField (fs.map (fun kv => if kv.1 == k then (k, v) else kv)) k' =
      getField fs k' := by
  induction fs with
  | nil => rfl
  | cons kv rest ih =>
    cases h0 : kv.1 == k with
    | true =>
      have h1 : (k == k') = false := by
        simp only [beq_eq_false_iff_ne, ne_eq]
        exact fun hk => hne hk.symm
      have h2 : (kv.1 == k') = false := by
        rw [beq_iff_eq.mp h0, h1]
      simp only [List.map_cons, h0, if_true, getField, List.find?, h1, h2]
      exact ih
    | false =>
      simp only [List.map_cons, h0, Bool.false_eq_true, if_false]
      cases h2 : kv.1 == k' with
      | true => simp [getField, List.find?, h2]
      | false =>
        simp only [getField, List.find?, h2]
        exact ih

theorem getField_append_single_ne (fs : List (String × FieldValue))
    (k k' : String) (v : FieldValue) (hne : k' ≠ k) :
    getField (fs ++ [(k, v)]) k' = getField fs k' := by
  induction fs with
  | nil =>
    have h1 : (k == k') = false := by
      simp only [beq_eq_false_iff_ne, ne_eq]
      exact fun hk => hne hk.symm
    simp [getField, List.find?, h1]
  | cons kv rest ih =>
    cases h2 : kv.1 == k' with
    | true => simp [getField, List.find?, h2]
    | false =>
      simp only [List.cons_append, getField, List.find?, h2]
      exact ih

theorem getField_setField_ne (fs : List (String × FieldValue)) (k k' : String)
    (v : FieldValue) (hne : k' ≠ k) :
    getField (setField fs k v) k' = getField fs k' := by
  unfold setField
  cases ha : fs.any (fun kv => kv.1 == k) with
  | true => simpa using getField_map_set_ne fs k k' v hne
  | false => simpa using getField_append_single_ne fs k k' v hne

theorem getField_applySet_not_mem (upd fs : List (String × FieldValue))
    (k : String) (h : k ∉ upd.map Prod.fst) :
    getField (applySet fs upd) k = getField fs k := by
  induction upd generalizing fs with
  | nil => rfl
  | cons u rest ih =>
    simp only [List.map_cons, List.mem_cons, not_or] at h
    have : applySet fs (u :: rest) = applySet (setField fs u.1 u.2) rest := rfl
    rw [this, ih (setField fs u.1 u.2) h.2,
      getField_setField_ne fs u.1 k u.2 h.1]

theorem applySet_append_single (fs xs : List (String × FieldValue))
    (k : String) (v : FieldValue) :
    applySet fs (xs ++ [(k, v)]) = setField (applySet fs xs) k v := by
  simp [applySet, List.foldl_append]

theorem findDoc_fOAU_found (coll : List RawDoc) (m : String)
    (s i : List (String × FieldValue))
    (h : coll.any (fun d => d.mediaId == m) = true) :
    (findOneAndUpdateUpsert coll m s i).find? (fun d => d.mediaId == m) =
      (coll.find? (fun d => d.mediaId == m)).map
        (fun d => ⟨d.mediaId, applySet d.fields s⟩) := by
  induction coll with
  | nil => simp at h
  | cons d rest ih =>
    cases hd : d.mediaId == m with
    | true =>
      simp [findOneAndUpdateUpsert, hd, List.find?]
    | false =>
      simp only [List.any_cons, hd, Bool.false_or] at h
      simp only [findOneAndUpdateUpsert, hd, Bool.false_eq_true, if_false,
        List.find?, Bool.false_eq_true]
      exact ih h

theorem findDoc_fOAU_notfound (coll : List RawDoc) (m : String)
    (s i : List (String × FieldValue))
    (h : coll.any (fun d => d.mediaId == m) = false) :
    (findOneAndUpdateUpsert coll m s i).find? (fun d => d.mediaId == m) =
      some ⟨m, applySet (applySet [] s) i⟩ := by
  induction coll with
  | nil => simp [findOneAndUpdateUpsert, List.find?]
  | cons d rest ih =>
    simp only [List.any_cons, Bool.or_eq_false_iff] at h
    simp only [findOneAndUpdateUpsert, h.1, Bool.false_eq_true, if_false,
      List.find?]
    exact ih h.2

/-- C7: `createdAt` is write-once — an `updateCollection` call on a `mediaId`
that already has a document, storing an object that carries no `createdAt`
field of its own (whether the cleaned payload parsed directly or went through
the JSON repair), leaves the stored `createdAt` unchanged. -/
theorem c7_createdAt_write_once (env : Env) (t : Nat) (coll : List RawDoc)
    (m data : String) (ob : Obj) (coll2 : List RawDoc) (evs : List Event)
    (hpath : env.jsonParse (cleanData data) = some ob
      ∨ (env.jsonParse (cleanData data) = none
          ∧ env.jsonParse (env.repair (cleanData data)) = some ob))
    (hno : "createdAt" ∉ ob.map Prod.fst)
    (hexists : coll.any (fun d => d.mediaId == m) = true)
    (h : updateCollection env t coll m data = (.ok (coll2, ob), evs)) :
    docField coll2 m "createdAt" = docField coll m "createdAt" := by
  have hfields : ∀ s : List (String × FieldValue),
      (∀ k, k ∈ s.map Prod.fst → k ∈ ob.map Prod.fst ∨ k = "updatedAt") →
      coll2 = findOneAndUpdateUpsert coll m s
        (match env.jsonParse (cleanData data) with
          | some _ => [("createdAt", FieldValue.time t)]
          | none => []) →
      docField coll2 m "createdAt" = docField coll m "createdAt" := by
    intro s hkeys hc2
    unfold docField
    rw [hc2, findDoc_fOAU_found coll m s _ hexists]
    rcases hf : coll.find? (fun d => d.mediaId == m) with _ | d
    · simp [hf]
    · simp only [hf, Option.map_some', Option.some_bind]
      refine getField_applySet_not_mem s d.fields "createdAt" ?_
      intro hmem
      rcases hkeys "createdAt" hmem with hk | hk
      · exact hno hk
      · exact absurd hk (by decide)
  rcases hpath with hp | ⟨hp1, hp2⟩
  · unfold updateCollection at h
    simp only [hp, Prod.mk.injEq, Except.ok.injEq] at h
    refine hfields (objFields ob ++ [("updatedAt", FieldValue.time t)]) ?_ ?_
    · intro k hk
      simp only [List.map_append, List.mem_append] at hk
      rcases hk with hk | hk
      · left
        simpa [objFields, List.map_map, Function.comp] using hk
      · right
        simpa using hk
    · rw [hp, ← h.1.1]
  · unfold updateCollection at h
    simp only [hp1, hp2, Prod.mk.injEq, Except.ok.injEq] at h
    refine hfields (objFields ob) ?_ ?_
    · intro k hk
      left
      simpa [objFields, List.map_map, Function.comp] using hk
    · rw [hp1, ← h.1.1]

/-- Witness for C7: a second write for key `m` with payload `good` preserves
the `createdAt` stamped earlier. -/
theorem c7_createdAt_write_once_witness :
    docField [⟨"m", [("createdAt", FieldValue.time 3), ("a", FieldValue.str "1"),
        ("updatedAt", FieldValue.time 9)]⟩] "m" "createdAt" =
      docField [⟨"m", [("createdAt", FieldValue.time 3)]⟩] "m" "createdAt" :=
  c7_createdAt_write_once envDemo 9 [⟨"m", [("createdAt", FieldValue.time 3)]⟩]
    "m" "good" [("a", "1")]
    [⟨"m", [("createdAt", FieldValue.time 3), ("a", FieldValue.str "1"),
      ("updatedAt", FieldValue.time 9)]⟩]
    [.writeDoc "m"] (by decide) (by decide) (by decide) rfl

/-- Witness for C1: with one video already stored and one new, the trace only
touches the new id. -/
theorem c1_generateText_dedup_witness :
    touchesId "v1" (Event.genCall "v2" "p") = false :=
  (c1_generateText_dedup envDemo ["v1", "v2"] ["p"] [⟨"v1", []⟩]).1 "v1"
    (by decide) (Event.genCall "v2" "p") (by decide)

/-- Counterexample for C4: a malformed payload takes the JSON-repair path,
whose fallback write stores only the repaired fields — the resulting document
has no `updatedAt` at all, so `updatedAt` is not set to the time of that
write. -/
theorem c4_counterexample :
    (updateCollection envDemo 5 [] "m" "bad").1 =
      .ok ([⟨"m", [("b", FieldValue.str "2")]⟩], [("b", "2")])
    ∧ docField [⟨"m", [("b", FieldValue.str "2")]⟩] "m" "updatedAt" = none := by
  exact ⟨rfl, rfl⟩

/-- C4 as amended: an `updateCollection` write whose cleaned payload parses
sets the stored document's `updatedAt` to the time of the write, but the
fallback write after a JSON repair stores only the repaired fields and sets
no timestamp — a repaired insert whose fixed JSON lacks an `updatedAt` key
leaves the document without `updatedAt`. -/
theorem c4_updatedAt_amended (env : Env) (t : Nat) (coll : List RawDoc)
    (m data : String) :
    (∀ parsed coll2 evs,
      env.jsonParse (cleanData data) = some parsed →
      updateCollection env t coll m data = (.ok (coll2, parsed), evs) →
      docField coll2 m "updatedAt" = some (FieldValue.time t))
    ∧ (∀ fixed coll2 evs,
      env.jsonParse (cleanData data) = none →
      env.jsonParse (env.repair (cleanData data)) = some fixed →
      "updatedAt" ∉ fixed.map Prod.fst →
      coll.any (fun d => d.mediaId == m) = false →
      updateCollection env t coll m data = (.ok (coll2, fixed), evs) →
      docField coll2 m "updatedAt" = none) := by
  constructor
  · intro parsed coll2 evs hp h
    unfold updateCollection at h
    simp only [hp, Prod.mk.injEq, Except.ok.injEq] at h
    rw [← h.1.1]
    unfold docField
    cases ha : coll.any (fun d => d.mediaId == m) with
    | true =>
      rw [findDoc_fOAU_found coll m _ _ ha]
      rcases hf : coll.find? (fun d => d.mediaId == m) with _ | d
      · have : (coll.find? (fun d => d.mediaId == m)).isSome = true := by
          rcases List.any_eq_true.mp ha with ⟨x, hx, hpx⟩
          exact List.find?_isSome.mpr ⟨x, hx, hpx⟩
        rw [hf] at this
        cases this
      · simp only [hf, Option.map_some', Option.some_bind]
        rw [applySet_append_single d.fields (objFields parsed) "updatedAt"
          (FieldValue.time t)]
        exact getField_setField_self _ _ _
    | false =>
      rw [findDoc_fOAU_notfound coll m _ _ ha]
      simp only [Option.some_bind]
      have happ : applySet (applySet [] (objFields parsed ++
          [("updatedAt", FieldValue.time t)])) [("createdAt", FieldValue.time t)] =
          setField (applySet [] (objFields parsed ++
            [("updatedAt", FieldValue.time t)])) "createdAt" (FieldValue.time t) := rfl
      rw [happ, getField_setField_ne _ _ _ _ (by decide),
        applySet_append_single [] (objFields parsed) "updatedAt" (FieldValue.time t)]
      exact getField_setField_self _ _ _
  · intro fixed coll2 evs hp1 hp2 hno ha h
    unfold updateCollection at h
    simp only [hp1, hp2, Prod.mk.injEq, Except.ok.injEq] at h
    rw [← h.1.1]
    unfold docField
    rw [findDoc_fOAU_notfound coll m _ _ ha]
    simp only [Option.some_bind]
    have happ : applySet (applySet [] (objFields fixed)) ([] : List (String × FieldValue)) =
        applySet [] (objFields fixed) := rfl
    rw [happ, getField_applySet_not_mem (objFields fixed) [] "updatedAt"
      (by simpa [objFields, List.map_map, Function.comp] using hno)]
    rfl

/-- Witness for C4 as amended: a parse-success write stamps `updatedAt`. -/
theorem c4_updatedAt_amended_witness :
    docField [⟨"m", [("a", FieldValue.str "1"), ("updatedAt", FieldValue.time 2),
        ("createdAt", FieldValue.time 2)]⟩] "m" "updatedAt" =
      some (FieldValue.time 2) :=
  (c4_updatedAt_amended envDemo 2 [] "m" "good").1 [("a", "1")]
    [⟨"m", [("a", FieldValue.str "1"), ("updatedAt", FieldValue.time 2),
      ("createdAt", FieldValue.time 2)]⟩]
    [.writeDoc "m"] (by decide) rfl

/-- Counterexample for C5: the core does rewrite payload characters
(`cleanData` is not the identity) and does invoke the JSON-repair step on a
malformed payload, so generated text is not treated as an opaque document
stored as received. -/
theorem c5_counterexample :
    cleanData "a\n+b" ≠ "a\n+b"
    ∧ Event.repairCall "bad" ∈ (updateCollection envDemo 5 [] "m" "bad").2 := by
  exact ⟨by decide, by decide⟩

/-- C5 as amended: `updateCollection` first rewrites the payload with
`cleanData` and parses the cleaned text as JSON; on success it stores the
parsed fields (returning the parsed object, with no repair call), and on a
parse failure it invokes the LLM JSON-repair step on the cleaned payload. -/
theorem c5_payload_amended (env : Env) (t : Nat) (coll : List RawDoc)
    (m data : String) :
    (∀ parsed, env.jsonParse (cleanData data) = some parsed →
      (updateCollection env t coll m data).2 = [.writeDoc m]
      ∧ ∃ coll2, (updateCollection env t coll m data).1 = .ok (coll2, parsed))
    ∧ (env.jsonParse (cleanData data) = none →
      Event.repairCall (cleanData data) ∈ (updateCollection env t coll m data).2) := by
  constructor
  · intro parsed hp
    have hval : updateCollection env t coll m data =
        (.ok (findOneAndUpdateUpsert coll m
          (objFields parsed ++ [("updatedAt", FieldValue.time t)])
          [("createdAt", FieldValue.time t)], parsed), [.writeDoc m]) := by
      unfold updateCollection
      simp only [hp]
    rw [hval]
    exact ⟨rfl, _, rfl⟩
  · intro hp
    unfold updateCollection
    simp only [hp]
    cases h2 : env.jsonParse (env.repair (cleanData data)) <;>
      simp [h2, List.mem_cons]

/-- Witness for C5 as amended: the repair call happens on payload `oops`. -/
theorem c5_payload_amended_witness :
    Event.repairCall "oops" ∈ (updateCollection envDemo 5 [] "m" "oops").2 :=
  (c5_payload_amended envDemo 5 [] "m" "oops").2 (by decide)

/-- C8: `updateExperimentCollection` is append-only with consecutive
versions — every successful call appends exactly one new document carrying
version `max + 1` over the existing `(mediaId, promptPath)` pair (or `1` when
no prior document exists) and leaves every previously stored document
untouched. -/
theorem c8_experiment_append_only (env : Env) (t : Nat) (coll : List ExpDoc)
    (m p data : String) (coll2 : List ExpDoc) (o : Obj) (v : Nat)
    (evs : List Event)
    (h : updateExperimentCollection env t coll m p data = (.ok (coll2, o, v), evs)) :
    coll2 = coll ++ [⟨m, p, v, o, t⟩]
    ∧ (matchingExps coll m p = [] → v = 1)
    ∧ (matchingExps coll m p ≠ [] → v = maxVersionOf coll m p + 1) := by
  have hv : coll2 = coll ++ [⟨m, p, v, o, t⟩] ∧ v = nextVersion coll m p := by
    unfold updateExperimentCollection at h
    cases h1 : env.jsonParse (cleanData data) with
    | some parsed =>
      simp only [h1, Prod.mk.injEq, Except.ok.injEq] at h
      rcases h with ⟨⟨hc, ho, hver⟩, _⟩
      subst hver
      exact ⟨by rw [← hc, ← ho], rfl⟩
    | none =>
      simp only [h1] at h
      cases h2 : env.jsonParse (env.repair (cleanData data)) with
      | some fixed =>
        simp only [h2, Prod.mk.injEq, Except.ok.injEq] at h
        rcases h with ⟨⟨hc, ho, hver⟩, _⟩
        subst hver
        exact ⟨by rw [← hc, ← ho], rfl⟩
      | none =>
        simp only [h2, Prod.mk.injEq] at h
        exact absurd h.1 (by simp)
  refine ⟨hv.1, ?_, ?_⟩
  · intro hempty
    rw [hv.2]
    unfold nextVersion
    rw [hempty]
    rfl
  · intro hne
    rw [hv.2]
    unfold nextVersion
    rw [if_neg (by simpa [List.isEmpty_iff] using hne)]

/-- Witness for C8: appending over an existing version-3 experiment yields
version 4 = 3 + 1. -/
theorem c8_experiment_append_only_witness :
    (4 : Nat) = maxVersionOf [⟨"m", "p", 3, [], 0⟩] "m" "p" + 1 :=
  (c8_experiment_append_only envDemo 4 [ExpDoc.mk "m" "p" 3 [] 0] "m" "p" "good"
    [ExpDoc.mk "m" "p" 3 [] 0, ExpDoc.mk "m" "p" 4 [("a", "1")] 4] [("a", "1")] 4
    [.insertExp "m" "p" 4] rfl).2.2 (by decide)

theorem countGenCalls_append (a b : List Event) :
    countGenCalls (a ++ b) = countGenCalls a + countGenCalls b := by
  simp [countGenCalls, List.filter_append]

theorem countGenCalls_updateExperimentCollection (env : Env) (t : Nat)
    (coll : List ExpDoc) (m p data : String) :
    countGenCalls (updateExperimentCollection env t coll m p data).2 = 0 := by
  unfold updateExperimentCollection
  cases h1 : env.jsonParse (cleanData data) with
  | some o =>
    simp only [h1]
    all_goals rfl
  | none =>
    simp only [h1]
    cases h2 : env.jsonParse (env.repair (cleanData data)) with
    | some o2 =>
      simp only [h2]
      all_goals rfl
    | none =>
      simp only [h2]
      all_goals rfl

theorem countGenCalls_cons_genCall (v p : String) (l : List Event) :
    countGenCalls (Event.genCall v p :: l) = countGenCalls l + 1 := by
  simp [countGenCalls, List.filter_cons]

theorem countGenCalls_logError (e : String) : countGenCalls [Event.logError e] = 0 := rfl

theorem generateText_eq (env : Env) (vids prompts : List String)
    (coll : List RawDoc) :
    generateText env vids prompts coll =
      match processVideos env (coll.map RawDoc.mediaId) prompts vids coll with
      | (coll2, none, evs) => (coll2, evs)
      | (coll2, some e, evs) => (coll2, evs ++ [.logError e]) := rfl

theorem processPrompts_fail (env : Env)
    (hfail : ∀ a b n, ∃ e, env.gen a b n = .error e)
    (vid : String) (prompts : List String) (coll : List RawDoc) :
    (prompts = [] ∧ processPrompts env vid prompts coll = (coll, none, []))
    ∨ (∃ e p rest, prompts = p :: rest
        ∧ processPrompts env vid prompts coll = (coll, some e, [.genCall vid p])) := by
  cases prompts with
  | nil => exact Or.inl ⟨rfl, rfl⟩
  | cons p rest =>
    rcases hfail vid p 8 with ⟨e, he⟩
    refine Or.inr ⟨e, p, rest, rfl, ?_⟩
    unfold processPrompts
    simp only [he]

theorem processVideos_fail (env : Env)
    (hfail : ∀ a b n, ∃ e, env.gen a b n = .error e)
    (ex prompts vids : List String) (coll : List RawDoc) :
    countGenCalls (processVideos env ex prompts vids coll).2.2 ≤ 1
    ∧ (processVideos env ex prompts vids coll).1 = coll := by
  induction vids generalizing coll with
  | nil => exact ⟨Nat.zero_le 1, rfl⟩
  | cons v rest ih =>
    cases hc : ex.contains v with
    | true =>
      have heq : processVideos env ex prompts (v :: rest) coll =
          processVideos env ex prompts rest coll := by
        conv_lhs => unfold processVideos
        simp only [hc, if_true]
      rw [heq]
      exact ih coll
    | false =>
      rcases processPrompts_fail env hfail v prompts coll with
        ⟨hp, heq⟩ | ⟨e, p, ps, hp, heq⟩
      · rcases hrest : processVideos env ex prompts rest coll with ⟨c3, r2, evs2⟩
        have heq2 : processVideos env ex prompts (v :: rest) coll = (c3, r2, evs2) := by
          unfold processVideos
          simp only [hc, Bool.false_eq_true, if_false, heq, hrest]
          rfl
        rw [heq2]
        have := ih coll
        rw [hrest] at this
        exact this
      · have heq2 : processVideos env ex prompts (v :: rest) coll =
            (coll, some e, [.genCall v p]) := by
          unfold processVideos
          simp only [hc, Bool.false_eq_true, if_false, heq]
        rw [heq2]
        exact ⟨Nat.le_refl 1, rfl⟩

/-- Counterexample for C3: with a generation endpoint whose first attempt
fails, `testPrompt` makes exactly one generation call — the failure is never
re-attempted — and the error propagates at once. -/
theorem c3_counterexample :
    countGenCalls (testPrompt envFail "v" "p" []).2 = 1
    ∧ (testPrompt envFail "v" "p" []).1 = .error "boom" := ⟨rfl, rfl⟩

/-- C3 as amended: generation calls are never retried — `testPrompt` issues
exactly one `client.generate.text` call and surfaces a failing call's error
immediately, and `generateText` against an always-failing generation endpoint
makes at most one generation call in total (the first failure aborts the
batch), with no backoff of any kind. -/
theorem c3_no_retry_amended :
    (∀ (env : Env) (v pp : String) (ecoll : List ExpDoc),
      countGenCalls (testPrompt env v pp ecoll).2 = 1)
    ∧ (∀ (env : Env) (v pp : String) (ecoll : List ExpDoc) (e : String),
        env.gen v (env.readFile pp) 5 = .error e →
        (testPrompt env v pp ecoll).1 = .error e)
    ∧ (∀ (env : Env) (vids prompts : List String) (coll : List RawDoc),
        (∀ a b n, ∃ e, env.gen a b n = .error e) →
        countGenCalls (generateText env vids prompts coll).2 ≤ 1) := by
  refine ⟨?_, ?_, ?_⟩
  · intro env v pp ecoll
    unfold testPrompt
    cases hg : env.gen v (env.readFile pp) 5 with
    | error e => simp only [hg]; rfl
    | ok data =>
      simp only [hg]
      rcases hu : updateExperimentCollection env env.now ecoll v pp data with ⟨r, evs⟩
      have hzero : countGenCalls evs = 0 := by
        have := countGenCalls_updateExperimentCollection env env.now ecoll v pp data
        rw [hu] at this
        exact this
      cases r with
      | error e =>
        simp only [countGenCalls_cons_genCall, countGenCalls_append, hzero,
          countGenCalls_logError]
      | ok pr =>
        simp only [countGenCalls_cons_genCall, hzero]
  · intro env v pp ecoll e hg
    unfold testPrompt
    simp only [hg]
  · intro env vids prompts coll hfail
    have hcount :=
      (processVideos_fail env hfail (coll.map RawDoc.mediaId) prompts vids coll).1
    rw [generateText_eq]
    rcases hp : processVideos env (coll.map RawDoc.mediaId) prompts vids coll
      with ⟨c2, r, evs⟩
    rw [hp] at hcount
    cases r with
    | none => simpa using hcount
    | some e =>
      simpa [countGenCalls_append, countGenCalls_logError] using hcount

/-- Witness for C3 as amended: a failing generation call surfaces its error
from `testPrompt` unchanged. -/
theorem c3_no_retry_amended_witness :
    (testPrompt envFail "v2" "p2" []).1 = .error "boom" :=
  c3_no_retry_amended.2.1 envFail "v2" "p2" [] "boom" rfl

/-- Counterexample for C6: the raw exception of the external generation call
(`boom`) is rethrown by `testPrompt` and is exactly what the caller sees — no
recorded status, no wrapping. -/
theorem c6_counterexample :
    (testPrompt envFail "v" "promptfile" []).1 = .error "boom" := rfl

/-- C6 as amended: neither operation records a failure status — `testPrompt`
logs the raw error and rethrows it unchanged to the caller, while
`generateText` swallows every error (with an always-failing generation
endpoint it returns normally, leaving the collection untouched, the failure
being only console-logged). -/
theorem c6_error_surfacing_amended :
    (∀ (env : Env) (v pp : String) (ecoll : List ExpDoc) (e : String),
      env.gen v (env.readFile pp) 5 = .error e →
      (testPrompt env v pp ecoll).1 = .error e
      ∧ Event.logError e ∈ (testPrompt env v pp ecoll).2)
    ∧ (∀ (env : Env) (vids prompts : List String) (coll : List RawDoc),
        (∀ a b n, ∃ er, env.gen a b n = .error er) →
        (generateText env vids prompts coll).1 = coll) := by
  constructor
  · intro env v pp ecoll e hg
    unfold testPrompt
    simp only [hg]
    exact ⟨by simp, by simp⟩
  · intro env vids prompts coll hfail
    have hcoll :=
      (processVideos_fail env hfail (coll.map RawDoc.mediaId) prompts vids coll).2
    rw [generateText_eq]
    rcases hp : processVideos env (coll.map RawDoc.mediaId) prompts vids coll
      with ⟨c2, r, evs⟩
    rw [hp] at hcoll
    cases r with
    | none => simpa using hcoll
    | some e => simpa using hcoll

/-- Witness for C6 as amended at a concrete failing environment. -/
theorem c6_error_surfacing_amended_witness :
    (testPrompt envFail "w" "q" []).1 = .error "boom"
    ∧ Event.logError "boom" ∈ (testPrompt envFail "w" "q" []).2 :=
  c6_error_surfacing_amended.1 envFail "w" "q" [] "boom" rfl

end InstAiBot
